import Mathlib

/-!
# Verification of the Keet aggregation-and-extrapolation pipeline

Shallow embedding of `src/keet.py`.  The pipeline has three stages, all living
in class `Keet`:

* aggregation (`prep_data`, line 53): `self.data.groupby('visit_date').id.nunique()`
  groups the raw events by their raw date key (sorted ascending) and counts the
  distinct user ids per key;
* extrapolation (`Keet.interpolate`, lines 32–48): least-squares polynomial fit
  (`np.polyfit` / `np.poly1d`) over day offsets, followed by a loop that assigns
  `s[s.index[-1] + pd.DateOffset(i)] = int(round(f(x[-1] + i)))` for
  `i = 1 .. days`;
* formatting (`prep_data`, lines 60–66): a table with columns
  `year, month, day, observed, count`, where `observed` is
  `dau.index.isin(observed_dates)`.

Modelling conventions:

* Raw CSV date values are modelled as `Option Int`: `some n` is a value that
  `pd.DatetimeIndex` parses to calendar day number `n` (days since 1970-01-01),
  `none` is an unparseable value.  For the valid ISO strings this program
  ingests, the lexicographic key order used by `groupby(sort=True)` coincides
  with the day-number order, which is the order used here; all unparseable
  raw values are identified, since the pipeline fails before their relative
  order can matter.
* `np.polyfit` is modelled in exact rational arithmetic: the unique
  least-squares solution (via the normal equations) when the Vandermonde
  matrix has full column rank, and in the underdetermined case numpy's
  column-norm-scaled minimum-norm least-squares solution
  `W Vᵀ (V W Vᵀ)⁻¹ y` with `W = diag(1/‖col_j‖²)` (numpy divides each
  Vandermonde column by its norm before `lstsq` and rescales the
  coefficients afterwards); a zero column norm, where `lstsq` raises
  `LinAlgError` on the resulting NaNs, is modelled as failure.  These are
  the only cases reachable with distinct abscissae.
* Python's `int(round(v))` on a float rounds half to even; this is
  `roundHalfEven` below.
* `s.sort_index(inplace=True)` and the enlarging item assignments in
  `interpolate` mutate the series object passed by the caller, and the
  function returns that same object; the call is therefore modelled as a
  function whose result is also the post-call state of the caller's series.
-/

namespace Keet

/-! ## Exact rational arithmetic

The floating-point arithmetic of the numpy calls is modelled by exact
rational arithmetic.  Rationals are represented as unreduced integer
fractions with positive denominator (every operation below preserves
positivity of the denominator on such inputs); comparisons go through
cross-multiplication, so no gcd normalisation is ever needed and every
operation is a structural computation. -/

structure Frac where
  num : Int
  den : Int
deriving DecidableEq

/-- The integer `n` as a fraction. -/
def Frac.ofInt (n : Int) : Frac := ⟨n, 1⟩

def Frac.add (a b : Frac) : Frac := ⟨a.num * b.den + b.num * a.den, a.den * b.den⟩

def Frac.sub (a b : Frac) : Frac := ⟨a.num * b.den - b.num * a.den, a.den * b.den⟩

def Frac.mul (a b : Frac) : Frac := ⟨a.num * b.num, a.den * b.den⟩

/-- Division, keeping the denominator positive. -/
def Frac.div (a b : Frac) : Frac :=
  if 0 ≤ b.num then ⟨a.num * b.den, a.den * b.num⟩
  else ⟨-(a.num * b.den), -(a.den * b.num)⟩

/-- Strict comparison by cross-multiplication (denominators positive). -/
def Frac.blt (a b : Frac) : Bool := a.num * b.den < b.num * a.den

/-- Is the fraction the rational zero? -/
def Frac.isZero (a : Frac) : Bool := a.num == 0

/-- `⌊a⌋` for a fraction with positive denominator. -/
def Frac.floorI (a : Frac) : Int := Int.fdiv a.num a.den

def Frac.pow (a : Frac) : Nat → Frac
  | 0 => ⟨1, 1⟩
  | n + 1 => a.mul (a.pow n)

/-- Sum of a list of fractions. -/
def sumF (l : List Frac) : Frac := l.foldr Frac.add ⟨0, 1⟩

/-! ## Rational matrix primitives (model of the numpy calls) -/

/-- Dot product of two rational vectors. -/
def dot (u v : List Frac) : Frac := sumF (List.zipWith Frac.mul u v)

/-- Remove entry `j` from a list (used to build minors). -/
def removeNth (j : Nat) (l : List Frac) : List Frac := l.take j ++ l.drop (j + 1)

/-- Determinant by Laplace expansion along the first row, with an explicit
fuel argument equal to the number of rows. -/
def detAux : Nat → List (List Frac) → Frac
  | 0, _ => ⟨1, 1⟩
  | _ + 1, [] => ⟨1, 1⟩
  | fuel + 1, r :: rs =>
    sumF ((List.range r.length).map fun j =>
      (Frac.ofInt (if j % 2 = 0 then 1 else -1)).mul
        ((r.getD j ⟨0, 1⟩).mul (detAux fuel (rs.map (removeNth j)))))

/-- Determinant of a square rational matrix given as a list of rows. -/
def det (m : List (List Frac)) : Frac := detAux m.length m

/-- Replace column `j` of matrix `m` by the vector `b`. -/
def replaceCol (j : Nat) (b : List Frac) (m : List (List Frac)) : List (List Frac) :=
  List.zipWith (fun row bi => row.take j ++ bi :: row.drop (j + 1)) m b

/-- Solve the square linear system `A x = b` by Cramer's rule; `none` when the
system is singular. -/
def solveLin (A : List (List Frac)) (b : List Frac) : Option (List Frac) :=
  let d := det A
  if d.isZero then none
  else some ((List.range A.length).map fun j => (det (replaceCol j b A)).div d)

/-- Vandermonde matrix with highest power first, one row per abscissa:
row `xi` is `(xi^deg, ..., xi, 1)`.  This is the design matrix of
`np.polyfit(x, y, deg)`. -/
def vandermonde (xs : List Frac) (deg : Nat) : List (List Frac) :=
  xs.map fun xi => (List.range (deg + 1)).map fun j => xi.pow (deg - j)

/-- Model of `np.polyfit(xs, ys, deg)`: coefficients of the least-squares
polynomial of degree `deg`, highest power first.  `np.polyfit` divides each
Vandermonde column by its Euclidean norm before calling `lstsq` and rescales
the solution afterwards.  When the normal equations `VᵀV c = Vᵀy` are
nonsingular this changes nothing: the result is the unique least-squares
solution.  Otherwise (the underdetermined case) `lstsq` returns the
minimum-norm solution of the scaled system, which rescales to
`c = W Vᵀ (V W Vᵀ)⁻¹ y` with `W = diag(1/‖col_j‖²)` — rational, needing only
the squared column norms.  A zero column norm (only possible when the single
abscissa 0 meets degree ≥ 1) makes the scaled matrix NaN and `lstsq` raise
`LinAlgError`, modelled as `none`.  With distinct abscissae and at least two
points one of the two branches always applies. -/
def polyfit (xs ys : List Frac) (deg : Nat) : Option (List Frac) :=
  let V := vandermonde xs deg
  let tV := (List.range (deg + 1)).map fun j => V.map fun row => row.getD j ⟨0, 1⟩
  match solveLin (tV.map fun r => tV.map (dot r)) (tV.map fun r => dot r ys) with
  | some c => some c
  | none =>
    let ns := tV.map fun r => dot r r
    if ns.any fun n => n.isZero then none
    else
      let W := ns.map fun n => (Frac.ofInt 1).div n
      let VW := V.map fun row => List.zipWith Frac.mul row W
      match solveLin (VW.map fun rw => V.map (dot rw)) ys with
      | some w => some (List.zipWith Frac.mul W (tV.map fun r => dot r w))
      | none => none

/-- Model of `np.poly1d(c)` applied at `x`: Horner evaluation, coefficients
highest power first. -/
def polyEval (c : List Frac) (x : Frac) : Frac :=
  c.foldl (fun acc a => (acc.mul x).add a) ⟨0, 1⟩

/-- Model of Python's `int(round(v))`: round half to even (banker's
rounding), the behaviour of `round` on a float. -/
def roundHalfEven (q : Frac) : Int :=
  let n := q.floorI
  let r := q.sub (Frac.ofInt n)
  if r.blt ⟨1, 2⟩ then n
  else if Frac.blt ⟨1, 2⟩ r then n + 1
  else if n % 2 = 0 then n else n + 1

/-! ## Calendar dates

Day numbers count days since 1970-01-01 (the `pd.Timestamp` epoch).  The
conversions implement the standard civil-calendar algorithms. -/

/-- Day number of the civil date `y-m-d`. -/
def daysFromCivil (y m d : Int) : Int :=
  let y2 := y - (if m ≤ 2 then 1 else 0)
  let era := Int.fdiv y2 400
  let yoe := y2 - era * 400
  let mp := Int.emod (m + 9) 12
  let doy := Int.fdiv (153 * mp + 2) 5 + d - 1
  let doe := yoe * 365 + Int.fdiv yoe 4 - Int.fdiv yoe 100 + doy
  era * 146097 + doe - 719468

/-- Civil date `(y, m, d)` of a day number; the decomposition performed by
`dau.index.year`, `.month`, `.day` in `prep_data`. -/
def civilFromDays (z0 : Int) : Int × Int × Int :=
  let z := z0 + 719468
  let era := Int.fdiv z 146097
  let doe := z - era * 146097
  let yoe := Int.fdiv
    (doe - Int.fdiv doe 1460 + Int.fdiv doe 36524 - Int.fdiv doe 146096) 365
  let y := yoe + era * 400
  let doy := doe - (365 * yoe + Int.fdiv yoe 4 - Int.fdiv yoe 100)
  let mp := Int.fdiv (5 * doy + 2) 153
  let d := doy - Int.fdiv (153 * mp + 2) 5 + 1
  let m := mp + (if mp < 10 then 3 else -9)
  (y + (if m ≤ 2 then 1 else 0), m, d)

/-! ## Data model -/

/-- One input record of the CSV: a raw visit date and a user id.  The raw
date is `some n` when `pd.DatetimeIndex` parses it to day number `n`, `none`
when it is unparseable. -/
structure Event where
  visit_date : Option Int
  id : Int
deriving DecidableEq

/-- A pandas Series with a date index: list of (day number, count) pairs in
index order. -/
abbrev Series := List (Int × Int)

/-- Key order used by `groupby(sort=True)`; on parseable keys it is the date
order (for the ISO date strings this equals the lexicographic string order). -/
def rawLe : Option Int → Option Int → Prop
  | none, _ => True
  | some _, none => False
  | some a, some b => a ≤ b

instance rawLe.decidableRel : DecidableRel rawLe
  | none, _ => isTrue trivial
  | some _, none => isFalse fun h => h
  | some a, some b => inferInstanceAs (Decidable (a ≤ b))

instance rawLe.isTotal : IsTotal (Option Int) rawLe where
  total a b := by
    cases a <;> cases b <;> simp [rawLe]
    omega

instance rawLe.isTrans : IsTrans (Option Int) rawLe where
  trans a b c hab hbc := by
    cases a <;> cases b <;> cases c <;> simp_all [rawLe]
    omega

/-- The distinct raw date keys of a group-by, sorted ascending: the index of
`self.data.groupby('visit_date')`. -/
def aggKeys (events : List Event) : List (Option Int) :=
  ((events.map (·.visit_date)).dedup).insertionSort rawLe

/-- Model of `self.data.groupby('visit_date').id.nunique()` (line 53): one
entry per distinct raw date key, keys sorted ascending, each mapped to the
number of distinct user ids among the events carrying that key. -/
def groupNunique (events : List Event) : List (Option Int × Int) :=
  (aggKeys events).map fun k =>
    (k, (((events.filter fun e => e.visit_date = k).map (·.id)).dedup.length : Int))

/-- Model of `dau.index = pd.DatetimeIndex(dau.index)` (line 55): parse every
raw key; fails (raising `ValueError`) when any key is unparseable. -/
def allParse : List (Option Int × Int) → Option Series
  | [] => some []
  | p :: rest =>
    match p.1 with
    | none => none
    | some d => (allParse rest).map fun l => (d, p.2) :: l

/-- `s.index[-1]` of a nonempty series. -/
def lastDate (s : Series) : Int := (s.getLastD (0, 0)).1

/-- Date order on series entries, used by `sort_index`. -/
def dateLe (a b : Int × Int) : Prop := a.1 ≤ b.1

instance dateLe.decidableRel : DecidableRel dateLe :=
  fun a b => inferInstanceAs (Decidable (a.1 ≤ b.1))

/-- Model of `s.sort_index(inplace=True)` (line 36): stable sort by date. -/
def sortSeries (s : Series) : Series := s.insertionSort dateLe

/-- The prediction loop of `interpolate` (lines 45–47):
`for i in range(1, days+1): s[s.index[-1] + pd.DateOffset(i)] = int(round(f(x[-1] + i)))`.
`i` is the loop counter, `r` the remaining iterations, `t` the current series.
Note that `s.index[-1]` is re-read from the growing series on every
iteration, while `x[-1]` is the fixed last offset computed before the loop. -/
def predictFrom (f : List Frac) (xLast : Frac) : Nat → Nat → Series → Series
  | _, 0, t => t
  | i, r + 1, t =>
    predictFrom f xLast (i + 1) r
      (t ++ [(lastDate t + (i : Int),
              roundHalfEven (polyEval f (xLast.add (Frac.ofInt (i : Int)))))])

/-- `x = (s.index - s.index[0]).days` (line 37): day offsets from the first
index entry. -/
def seriesOffsets (t : Series) : List Frac :=
  t.map fun p => Frac.ofInt (p.1 - (t.headD (0, 0)).1)

/-- `y = s.values` (line 38), as rationals for the fit. -/
def seriesVals (t : Series) : List Frac := t.map fun p => Frac.ofInt p.2

/-- Model of `Keet.interpolate(s, days, poly_n)` (lines 32–48).  `none`
models an uncaught exception: an empty series (`s.index[0]` raises
`IndexError`), or a fit outside the two full-rank cases covered by the
`polyfit` model.  The pandas calls `sort_index(inplace=True)` and
`s[new_label] = value` mutate the argument series object itself and the
function returns that object, so the result is also the post-call state of
the caller's series. -/
def interpolate (s : Series) (days : Nat) (polyN : Nat) : Option Series :=
  let t := sortSeries s
  if t.isEmpty then none
  else
    match polyfit (seriesOffsets t) (seriesVals t) polyN with
    | none => none
    | some f => some (predictFrom f ((seriesOffsets t).getLastD ⟨0, 1⟩) 1 days t)

/-- The exceptions that can escape `prep_data`, plus the two error classes the
specification names.  `dataFormatError` and `insufficientDataError` are
modelled from the spec: no such classes exist anywhere in the source, which
raises only the builtin Python exceptions. -/
inductive KeetError where
  | attributeError
  | indexError
  | dataFormatError
  | insufficientDataError
deriving DecidableEq

/-- One row of the `data_prepared` frame (lines 60–66). -/
structure OutputRow where
  year : Int
  month : Int
  day : Int
  observed : Bool
  count : Int
deriving DecidableEq

/-- Model of `prep_data` (lines 50–68) up to (but excluding) the year/month/day
decomposition: the extended series and the `observed_dates` list.  When some
raw date fails to parse, the `ValueError` from `pd.DatetimeIndex` is caught
and logged (lines 58–59), `observed_dates` is never bound and `dau` keeps its
raw index, so the frame construction at line 61 dies with `AttributeError`
(`dau.index.year` on a non-datetime index).  When the series is empty,
`interpolate` raises `IndexError` at `s.index[0]`, which `except ValueError`
does not catch.  The source hardcodes `Keet.interpolate(dau, 1, 3)`:
horizon 1, polynomial degree 3. -/
def prepSeries (events : List Event) : Except KeetError (Series × List Int) :=
  let dau := groupNunique events
  match allParse dau with
  | none => .error .attributeError
  | some dau2 =>
    let observedDates := dau2.map (·.1)
    match interpolate dau2 1 3 with
    | none => .error .indexError
    | some ext => .ok (ext, observedDates)

/-- The frame construction of lines 60–66: one row per series entry, in
series order, with `observed = dau.index.isin(observed_dates)`. -/
def mkRows (ext : Series) (observedDates : List Int) : List OutputRow :=
  ext.map fun p =>
    let c := civilFromDays p.1
    ⟨c.1, c.2.1, c.2.2, decide (p.1 ∈ observedDates), p.2⟩

/-- Model of `prep_data` (lines 50–68): the full `data_prepared` frame. -/
def prepData (events : List Event) : Except KeetError (List OutputRow) :=
  (prepSeries events).map fun r => mkRows r.1 r.2

/-- The number of distinct user ids observed on day `d`: the quantity
`|\x7b user_id : (d, user_id) ∈ events \x7d|` of the specification. -/
def distinctIdsOn (events : List Event) (d : Int) : Nat :=
  (((events.filter fun e => e.visit_date = some d).map (·.id)).dedup).length

/-- A series sorted ascending by date. -/
def SeriesSorted (s : Series) : Prop := s.Pairwise fun a b => a.1 ≤ b.1

/-! ## Lemmas about the prediction loop -/

theorem lastDate_concat (t : Series) (a : Int × Int) :
    lastDate (t ++ [a]) = a.1 := by
  simp [lastDate, List.getLastD_concat]

/-- The loop only appends: the result is the input followed by `r` new
entries, all carrying dates strictly beyond the input's last date. -/
theorem predictFrom_split (f : List Frac) (xL : Frac) :
    ∀ (r i : Nat) (t : Series), ∃ u : Series,
      predictFrom f xL i r t = t ++ u ∧ u.length = r ∧
      (t ≠ [] → 1 ≤ i → ∀ p ∈ u, lastDate t < p.1) := by
  intro r
  induction r with
  | zero => intro i t; exact ⟨[], by simp [predictFrom], rfl, by simp⟩
  | succ r ih =>
    intro i t
    set a : Int × Int :=
      (lastDate t + (i : Int), roundHalfEven (polyEval f (xL.add (Frac.ofInt (i : Int))))) with ha
    obtain ⟨u, hu, hlen, hdates⟩ := ih (i + 1) (t ++ [a])
    refine ⟨a :: u, ?_, by simp [hlen], ?_⟩
    · simpa [predictFrom, List.append_assoc] using hu
    · intro hne hi p hp
      rcases List.mem_cons.mp hp with rfl | hp
      · have : (1 : Int) ≤ (i : Int) := by exact_mod_cast hi
        simp only [ha]
        omega
      · have h1 : lastDate (t ++ [a]) < p.1 :=
          hdates (by simp) (by omega) p hp
        rw [lastDate_concat] at h1
        have : (1 : Int) ≤ (i : Int) := by exact_mod_cast hi
        simp only [ha] at h1
        omega

theorem predictFrom_length (f : List Frac) (xL : Frac) (r i : Nat) (t : Series) :
    (predictFrom f xL i r t).length = t.length + r := by
  obtain ⟨u, hu, hlen, -⟩ := predictFrom_split f xL r i t
  simp [hu, hlen]

/-- The `k`-th appended entry stores the fitted value at offset `xL + i + k`,
rounded half to even. -/
theorem predictFrom_getD_value (f : List Frac) (xL : Frac) :
    ∀ (r i k : Nat) (t : Series), k < r →
      ((predictFrom f xL i r t).getD (t.length + k) (0, 0)).2 =
        roundHalfEven (polyEval f (xL.add (Frac.ofInt ((i + k : Nat) : Int)))) := by
  intro r
  induction r with
  | zero => omega
  | succ r ih =>
    intro i k t hk
    set a : Int × Int :=
      (lastDate t + (i : Int), roundHalfEven (polyEval f (xL.add (Frac.ofInt (i : Int))))) with ha
    have hstep : predictFrom f xL i (r + 1) t = predictFrom f xL (i + 1) r (t ++ [a]) := by
      simp [predictFrom]
    cases k with
    | zero =>
      obtain ⟨u, hu, hlen, -⟩ := predictFrom_split f xL r (i + 1) (t ++ [a])
      rw [hstep, hu, List.append_assoc, List.getD_eq_getElem?_getD,
        List.getElem?_append_right (Nat.le_add_right t.length 0)]
      simp [ha]
    | succ k =>
      have h2 : t.length + (k + 1) = (t ++ [a]).length + k := by simp; omega
      rw [hstep, h2, ih (i + 1) k (t ++ [a]) (by omega)]
      have h3 : (i + 1) + k = i + (k + 1) := by omega
      rw [h3]

/-! ## Lemmas about sorting and aggregation -/

theorem mem_aggKeys {events : List Event} {k : Option Int} :
    k ∈ aggKeys events ↔ ∃ e ∈ events, e.visit_date = k := by
  simp [aggKeys, List.mem_insertionSort, List.mem_dedup, List.mem_map]

theorem nodup_aggKeys (events : List Event) : (aggKeys events).Nodup :=
  (List.perm_insertionSort rawLe _).nodup_iff.mpr (List.nodup_dedup _)

theorem sorted_aggKeys (events : List Event) :
    (aggKeys events).Pairwise rawLe :=
  List.sorted_insertionSort rawLe _

theorem sortSeries_of_sorted {s : Series} (h : SeriesSorted s) : sortSeries s = s :=
  List.Sorted.insertionSort_eq (show List.Sorted dateLe s from h)

theorem allParse_eq_some {dau : List (Option Int × Int)} {l : Series}
    (h : allParse dau = some l) :
    l = dau.map (fun p => (p.1.getD 0, p.2)) ∧ ∀ p ∈ dau, p.1.isSome := by
  induction dau generalizing l with
  | nil =>
    simp only [allParse, Option.some.injEq] at h
    subst h
    simp
  | cons p rest ih =>
    match hp : p.1 with
    | none => simp [allParse, hp] at h
    | some d =>
      simp only [allParse, hp] at h
      cases hrest : allParse rest with
      | none => rw [hrest] at h; simp at h
      | some l2 =>
        rw [hrest] at h
        have h3 : l = (d, p.2) :: l2 := by
          have := h.symm
          simpa using this
        subst h3
        obtain ⟨h1, h2⟩ := ih hrest
        constructor
        · simp [hp, h1]
        · intro q hq
          rcases List.mem_cons.mp hq with rfl | hq
          · simp [hp]
          · exact h2 q hq

theorem allParse_of_isSome {dau : List (Option Int × Int)}
    (h : ∀ p ∈ dau, p.1.isSome) :
    allParse dau = some (dau.map fun p => (p.1.getD 0, p.2)) := by
  induction dau with
  | nil => simp [allParse]
  | cons p rest ih =>
    obtain ⟨d, hd⟩ := Option.isSome_iff_exists.mp (h p (List.mem_cons_self p rest))
    have hrest := ih fun q hq => h q (List.mem_cons_of_mem p hq)
    simp [allParse, hd, hrest]

theorem allParse_none {dau : List (Option Int × Int)}
    (h : ∃ p ∈ dau, p.1 = none) : allParse dau = none := by
  induction dau with
  | nil => simp at h
  | cons p rest ih =>
    obtain ⟨q, hq, hqn⟩ := h
    rcases List.mem_cons.mp hq with rfl | hq
    · simp [allParse, hqn]
    · cases hp : p.1 with
      | none => simp [allParse, hp]
      | some d => simp [allParse, hp, ih ⟨q, hq, hqn⟩]

/-- Structure of a successfully parsed aggregate (`dau` after line 55). -/
theorem parsed_structure {events : List Event} {dau2 : Series}
    (h : allParse (groupNunique events) = some dau2) :
    dau2 = (aggKeys events).map (fun k =>
      (k.getD 0,
        (((events.filter fun e => e.visit_date = k).map (·.id)).dedup.length : Int))) ∧
    ∀ k ∈ aggKeys events, k.isSome := by
  obtain ⟨h1, h2⟩ := allParse_eq_some h
  constructor
  · rw [h1, groupNunique, List.map_map]
    simp [Function.comp_def]
  · intro k hk
    exact h2 (k, (((events.filter fun e => e.visit_date = k).map (·.id)).dedup.length : Int))
      (List.mem_map_of_mem _ hk)

/-- A successfully parsed aggregate is strictly sorted by date. -/
theorem parsed_sorted {events : List Event} {dau2 : Series}
    (h : allParse (groupNunique events) = some dau2) :
    dau2.Pairwise fun a b => a.1 < b.1 := by
  obtain ⟨h1, h2⟩ := parsed_structure h
  rw [h1, List.pairwise_map]
  have hs := (sorted_aggKeys events).and (nodup_aggKeys events)
  refine hs.imp_of_mem ?_
  intro a b ha hb hab
  obtain ⟨x, hx⟩ := Option.isSome_iff_exists.mp (h2 a ha)
  obtain ⟨y, hy⟩ := Option.isSome_iff_exists.mp (h2 b hb)
  subst hx hy
  obtain ⟨hle, hne⟩ := hab
  have hle2 : x ≤ y := hle
  simp only [Option.getD_some]
  have : x ≠ y := fun hxy => hne (by rw [hxy])
  omega

/-- The dates of a successfully parsed aggregate are exactly the distinct
parseable dates of the input events. -/
theorem parsed_mem {events : List Event} {dau2 : Series}
    (h : allParse (groupNunique events) = some dau2) (d : Int) :
    d ∈ dau2.map Prod.fst ↔ ∃ e ∈ events, e.visit_date = some d := by
  obtain ⟨h1, h2⟩ := parsed_structure h
  rw [h1, List.map_map]
  constructor
  · intro hd
    obtain ⟨k, hk, hkd⟩ := List.mem_map.mp hd
    obtain ⟨x, hx⟩ := Option.isSome_iff_exists.mp (h2 k hk)
    subst hx
    simp only [Function.comp_apply, Option.getD_some] at hkd
    rw [hkd] at hk
    exact mem_aggKeys.mp hk
  · intro he
    have hk : some d ∈ aggKeys events := mem_aggKeys.mpr he
    exact List.mem_map.mpr ⟨some d, hk, rfl⟩

/-- Counts in a successfully parsed aggregate are distinct-id counts. -/
theorem parsed_counts {events : List Event} {dau2 : Series}
    (h : allParse (groupNunique events) = some dau2) :
    ∀ p ∈ dau2, p.2 = (distinctIdsOn events p.1 : Int) := by
  obtain ⟨h1, h2⟩ := parsed_structure h
  intro p hp
  rw [h1] at hp
  obtain ⟨k, hk, hkp⟩ := List.mem_map.mp hp
  obtain ⟨x, hx⟩ := Option.isSome_iff_exists.mp (h2 k hk)
  subst hx
  simp only [Option.getD_some] at hkp
  rw [← hkp]
  simp [distinctIdsOn]

theorem getLastD_cons₂ (x y : Int × Int) (t : Series) :
    (x :: y :: t).getLastD (0, 0) = (y :: t).getLastD (0, 0) := by
  simp [List.getLastD_cons]

theorem lastDate_cons₂ (x y : Int × Int) (t : Series) :
    lastDate (x :: y :: t) = lastDate (y :: t) := by
  simp [lastDate, getLastD_cons₂]

theorem lastDate_mem : ∀ (l : Series), l ≠ [] → (l.getLastD (0, 0)) ∈ l := by
  intro l
  induction l with
  | nil => simp
  | cons x t ih =>
    intro _
    cases t with
    | nil => simp [List.getLastD]
    | cons y u =>
      have := ih (by simp)
      rw [getLastD_cons₂]
      exact List.mem_cons_of_mem x this

/-- In a strictly date-sorted series every date is at most the last date. -/
theorem le_lastDate_of_sorted : ∀ {l : Series},
    l.Pairwise (fun a b => a.1 < b.1) → ∀ p ∈ l, p.1 ≤ lastDate l := by
  intro l
  induction l with
  | nil => intro _ p hp; simp at hp
  | cons q rest ih =>
    intro h p hp
    rw [List.pairwise_cons] at h
    obtain ⟨hq, hrest⟩ := h
    rcases List.mem_cons.mp hp with rfl | hp
    · cases rest with
      | nil => simp [lastDate, List.getLastD]
      | cons r rs =>
        rw [lastDate_cons₂]
        have hmem := lastDate_mem (r :: rs) (by simp)
        exact le_of_lt (hq _ hmem)
    · cases rest with
      | nil => simp at hp
      | cons r rs =>
        rw [lastDate_cons₂]
        exact ih hrest p hp

/-! ## Decomposition lemmas for `interpolate` and `prepSeries` -/

theorem interpolate_eq_some {s t : Series} {days polyN : Nat}
    (h : interpolate s days polyN = some t) :
    ∃ f, polyfit (seriesOffsets (sortSeries s)) (seriesVals (sortSeries s)) polyN = some f ∧
      sortSeries s ≠ [] ∧
      t = predictFrom f ((seriesOffsets (sortSeries s)).getLastD ⟨0, 1⟩) 1 days (sortSeries s) := by
  rw [interpolate] at h
  by_cases he : (sortSeries s).isEmpty
  · simp [he] at h
  · simp only [he, Bool.false_eq_true, if_false] at h
    cases hf : polyfit (seriesOffsets (sortSeries s)) (seriesVals (sortSeries s)) polyN with
    | none => rw [hf] at h; simp at h
    | some f =>
      rw [hf] at h
      simp only [Option.some.injEq] at h
      exact ⟨f, rfl, by simpa [List.isEmpty_iff] using he, h.symm⟩

theorem interpolate_split {s t : Series} {days polyN : Nat}
    (h : interpolate s days polyN = some t) :
    ∃ u : Series, t = sortSeries s ++ u ∧ u.length = days ∧
      ∀ p ∈ u, lastDate (sortSeries s) < p.1 := by
  obtain ⟨f, -, hne, ht⟩ := interpolate_eq_some h
  obtain ⟨u, hu, hlen, hdates⟩ :=
    predictFrom_split f ((seriesOffsets (sortSeries s)).getLastD ⟨0, 1⟩) days 1 (sortSeries s)
  exact ⟨u, by rw [ht, hu], hlen, hdates hne (le_refl 1)⟩

theorem prepSeries_ok {events : List Event} {ext : Series} {obs : List Int}
    (h : prepSeries events = .ok (ext, obs)) :
    ∃ dau2 : Series, allParse (groupNunique events) = some dau2 ∧
      obs = dau2.map Prod.fst ∧ interpolate dau2 1 3 = some ext := by
  simp only [prepSeries] at h
  split at h
  · exact absurd h (by simp)
  · rename_i dau2 hp
    split at h
    · exact absurd h (by simp)
    · rename_i ext2 hi
      simp only [Except.ok.injEq, Prod.mk.injEq] at h
      obtain ⟨h1, h2⟩ := h
      exact ⟨dau2, hp, h2.symm, by rw [hi, h1]⟩

instance (s : Series) : Decidable (SeriesSorted s) :=
  inferInstanceAs (Decidable (List.Pairwise (fun a b : Int × Int => a.1 ≤ b.1) s))

/-! ## Claims -/

/-- Claim C2 (code divergence): on the series with counts 3, 5, 4 on
2021-01-01..03 (day numbers 18628..18630), degree 1 and horizon 2, the code
appends entries for 2021-01-04 (18631) and 2021-01-06 (18633) — not the two
consecutive days 01-04 and 01-05 the claim requires — because
`s.index[-1]` is re-read from the growing series on every loop iteration.
The length of the output is nevertheless `len(series) + h`. -/
theorem extrapolator_nonconsecutive_dates_eval :
    interpolate [(18628, 3), (18629, 5), (18630, 4)] 2 1 =
      some [(18628, 3), (18629, 5), (18630, 4), (18631, 5), (18633, 6)] ∧
    ([(18628, 3), (18629, 5), (18630, 4), (18631, 5), (18633, 6)] : Series).map Prod.fst ≠
      [18628, 18629, 18630, 18631, 18632] ∧
    ([(18628, 3), (18629, 5), (18630, 4), (18631, 5), (18633, 6)] : Series).length = 3 + 2 :=
  ⟨by decide, by decide, by decide⟩

/-- Claim C4, counterexample: on an input with an unparseable date the
operation does not fail with `DataFormatError` (no such class exists in the
code); the `ValueError` from `pd.DatetimeIndex` is caught and logged and the
frame construction then dies with an `AttributeError`. -/
theorem dataFormatError_cex :
    prepData [⟨none, 7⟩] = .error .attributeError ∧
    prepData [⟨none, 7⟩] ≠ .error .dataFormatError := by
  refine ⟨rfl, fun hcontra => ?_⟩
  have h1 : prepData [(⟨none, 7⟩ : Event)] = .error .attributeError := rfl
  rw [h1] at hcontra
  simp at hcontra

/-- Claim C4, amended: if any event's date fails to parse, `prep_data` fails
(with an uncaught `AttributeError`, after catching and logging the parse
error) and emits no prepared output of any kind. -/
theorem parse_failure_amended (events : List Event)
    (h : ∃ e ∈ events, e.visit_date = none) :
    prepData events = .error .attributeError := by
  have hnone : allParse (groupNunique events) = none := by
    apply allParse_none
    obtain ⟨e, he, hed⟩ := h
    exact ⟨((none : Option Int),
        ((((events.filter fun x => x.visit_date = none).map (·.id)).dedup.length : Nat) : Int)),
      List.mem_map_of_mem _ (mem_aggKeys.mpr ⟨e, he, hed⟩), rfl⟩
  simp only [prepData, prepSeries, hnone]
  rfl

theorem parse_failure_amended_witness :
    prepData [⟨none, 7⟩, ⟨some 3, 1⟩] = .error .attributeError :=
  parse_failure_amended _ ⟨⟨none, 7⟩, List.mem_cons_self _ _, rfl⟩

/-- Claim C5, counterexample: a series of 2 observed points extrapolated with
degree 3 does not fail — no `InsufficientDataError` exists in the code and no
point-count check is performed; `np.polyfit` computes an underdetermined
least-squares fit and an output is produced. -/
theorem insufficientData_cex :
    (interpolate [(0, 3), (1, 5)] 1 3).isSome = true := by decide

/-- Claim C5, amended: with 2 observed points and degree 3 the extrapolation
succeeds: `np.polyfit` returns the column-scaled minimum-norm least-squares
fit (which on offsets 0, 1 coincides with the plain minimum-norm cubic
`(2/3)(x³+x²+x) + 3`) and the series is extended by the requested horizon; at
offset 2 the predicted count is `round(37/3) = 12`. -/
theorem insufficientData_amended :
    interpolate [(0, 3), (1, 5)] 1 3 = some [(0, 3), (1, 5), (2, 12)] ∧
    ([(0, 3), (1, 5), (2, 12)] : Series).length = 2 + 1 :=
  ⟨by decide, by decide⟩

/-- Claim C6, counterexample: `interpolate` is not side-effect-free on its
argument.  `sort_index(inplace=True)` and the enlarging assignments
`s[new_label] = value` mutate the series object passed in (the returned
series is that same object), so after `interpolate(s, 1, 1)` the caller's
series has gained an entry: it is `[(0,3),(1,5),(2,7)]`, not `[(0,3),(1,5)]`. -/
theorem extrapolator_mutation_cex :
    interpolate [(0, 3), (1, 5)] 1 1 = some [(0, 3), (1, 5), (2, 7)] ∧
    interpolate [(0, 3), (1, 5)] 1 1 ≠ some [(0, 3), (1, 5)] :=
  ⟨by decide, by decide⟩

/-- Claim C6, amended: the call mutates the caller's series object (sorting
it in place and appending the predicted entries to it; the returned series is
that object), but the original entries are preserved unchanged as a prefix:
for a sorted input series the post-call object is the input followed by
exactly `days` appended entries. -/
theorem extrapolator_mutation_amended (s t : Series) (days polyN : Nat)
    (hs : SeriesSorted s) (h : interpolate s days polyN = some t) :
    t.take s.length = s ∧ t.length = s.length + days := by
  obtain ⟨u, ht, hulen, -⟩ := interpolate_split h
  rw [sortSeries_of_sorted hs] at ht
  subst ht
  exact ⟨List.take_left s u, by simp [hulen]⟩

theorem extrapolator_mutation_amended_witness :
    SeriesSorted [(0, 3), (1, 5)] ∧
    (([(0, 3), (1, 5), (2, 7)] : Series).take 2 = [(0, 3), (1, 5)] ∧
      ([(0, 3), (1, 5), (2, 7)] : Series).length = 2 + 1) :=
  ⟨by decide, extrapolator_mutation_amended [(0, 3), (1, 5)] _ 1 1 (by decide) (by decide)⟩

/-- Claim C8: extrapolating a sorted series with horizon 0 returns the series
unchanged (the prediction loop body never runs, and sorting a sorted series
is the identity), for any degree at which the fit succeeds. -/
theorem horizon_zero_identity (s t : Series) (polyN : Nat)
    (hs : SeriesSorted s) (h : interpolate s 0 polyN = some t) : t = s := by
  obtain ⟨u, ht, hulen, -⟩ := interpolate_split h
  rw [sortSeries_of_sorted hs] at ht
  rw [List.length_eq_zero.mp hulen, List.append_nil] at ht
  exact ht

theorem horizon_zero_identity_witness :
    SeriesSorted [(5, 2), (6, 9)] ∧ ([(5, 2), (6, 9)] : Series) = [(5, 2), (6, 9)] :=
  ⟨by decide, horizon_zero_identity [(5, 2), (6, 9)] _ 1 (by decide) (by decide)⟩

/-- Claim C9: the extrapolation is a pure function of the series, horizon and
degree — two runs on identical inputs produce identical outputs (the code has
no random state). -/
theorem extrapolator_deterministic (s₁ s₂ : Series) (days₁ days₂ polyN₁ polyN₂ : Nat)
    (hs : s₁ = s₂) (hd : days₁ = days₂) (hp : polyN₁ = polyN₂) :
    interpolate s₁ days₁ polyN₁ = interpolate s₂ days₂ polyN₂ := by
  rw [hs, hd, hp]

theorem extrapolator_deterministic_witness :
    interpolate [(0, 1), (1, 4)] 2 1 = interpolate [(0, 1), (1, 4)] 2 1 :=
  extrapolator_deterministic [(0, 1), (1, 4)] [(0, 1), (1, 4)] 2 2 1 1 rfl rfl rfl

/-- Claim C1: for every input whose dates all parse, the aggregate has one
entry per distinct date of the input, sorted strictly ascending by date (so
no two entries share a date), each mapped to the number of distinct user ids
observed on that date. -/
theorem aggregator_spec (events : List Event)
    (h : ∀ e ∈ events, e.visit_date.isSome) :
    ∃ l : Series, allParse (groupNunique events) = some l ∧
      (l.map Prod.fst).Pairwise (· < ·) ∧
      (l.map Prod.fst).Nodup ∧
      (∀ d : Int, d ∈ l.map Prod.fst ↔ ∃ e ∈ events, e.visit_date = some d) ∧
      ∀ p ∈ l, p.2 = (distinctIdsOn events p.1 : Int) := by
  have hkeys : ∀ p ∈ groupNunique events, p.1.isSome := by
    intro p hp
    rw [groupNunique] at hp
    obtain ⟨k, hk, rfl⟩ := List.mem_map.mp hp
    obtain ⟨e, he, hek⟩ := mem_aggKeys.mp hk
    rw [← hek]
    exact h e he
  have hsome := allParse_of_isSome hkeys
  refine ⟨_, hsome, ?_, ?_, parsed_mem hsome, parsed_counts hsome⟩
  · exact List.pairwise_map.mpr (parsed_sorted hsome)
  · exact (List.pairwise_map.mpr (parsed_sorted hsome)).imp ne_of_lt

theorem aggregator_spec_witness :
    (∀ e ∈ ([⟨some 9, 4⟩, ⟨some 7, 5⟩, ⟨some 9, 4⟩, ⟨some 9, 6⟩] : List Event),
      e.visit_date.isSome) ∧
    (∃ l : Series,
      allParse (groupNunique [⟨some 9, 4⟩, ⟨some 7, 5⟩, ⟨some 9, 4⟩, ⟨some 9, 6⟩]) = some l ∧
      (l.map Prod.fst).Pairwise (· < ·) ∧
      (l.map Prod.fst).Nodup ∧
      (∀ d : Int, d ∈ l.map Prod.fst ↔
        ∃ e ∈ ([⟨some 9, 4⟩, ⟨some 7, 5⟩, ⟨some 9, 4⟩, ⟨some 9, 6⟩] : List Event),
          e.visit_date = some d) ∧
      ∀ p ∈ l,
        p.2 = (distinctIdsOn [⟨some 9, 4⟩, ⟨some 7, 5⟩, ⟨some 9, 4⟩, ⟨some 9, 6⟩] p.1 : Int)) :=
  ⟨by decide, aggregator_spec _ (by decide)⟩

/-- Claim C3: in the prepared output, the `observed` flag of a row is true
exactly when the row's date was one of the distinct (parseable) dates of the
input events; the entries appended by the extrapolation carry dates beyond
the last observed date and are flagged false. -/
theorem observed_flag_iff (events : List Event) (ext : Series) (obs : List Int)
    (h : prepSeries events = .ok (ext, obs)) (i : Nat) (hi : i < ext.length) :
    (((mkRows ext obs).getD i ⟨0, 0, 0, false, 0⟩).observed = true ↔
      ∃ e ∈ events, e.visit_date = some ((ext.getD i (0, 0)).1)) := by
  obtain ⟨dau2, hparse, hobs, hint⟩ := prepSeries_ok h
  have hlt := parsed_sorted hparse
  have hss : sortSeries dau2 = dau2 := sortSeries_of_sorted (hlt.imp le_of_lt)
  obtain ⟨u, ht, hulen, hdates⟩ := interpolate_split hint
  rw [hss] at ht hdates
  subst ht
  have hrow : ((mkRows (dau2 ++ u) obs).getD i ⟨0, 0, 0, false, 0⟩).observed
      = decide (((dau2 ++ u).getD i (0, 0)).1 ∈ obs) := by
    rw [mkRows, List.getD_eq_getElem?_getD, List.getElem?_map,
      List.getElem?_eq_getElem hi, List.getD_eq_getElem?_getD,
      List.getElem?_eq_getElem hi]
    rfl
  rw [hrow, decide_eq_true_eq]
  by_cases hc : i < dau2.length
  · have hget : (dau2 ++ u).getD i (0, 0) = dau2.getD i (0, 0) := by
      rw [List.getD_eq_getElem?_getD, List.getElem?_append_left hc,
        ← List.getD_eq_getElem?_getD]
    rw [hget, hobs]
    exact parsed_mem hparse _
  · have hge : dau2.length ≤ i := Nat.le_of_not_lt hc
    have hk : i - dau2.length < u.length := by
      rw [List.length_append] at hi
      omega
    have hgetu : (dau2 ++ u).getD i (0, 0) = u.getD (i - dau2.length) (0, 0) := by
      rw [List.getD_eq_getElem?_getD, List.getElem?_append_right hge,
        ← List.getD_eq_getElem?_getD]
    rw [hgetu]
    have hpu : u.getD (i - dau2.length) (0, 0) ∈ u := by
      rw [List.getD_eq_getElem?_getD, List.getElem?_eq_getElem hk]
      exact List.getElem_mem hk
    have hgt : lastDate dau2 < (u.getD (i - dau2.length) (0, 0)).1 := hdates _ hpu
    constructor
    · intro hmem
      exfalso
      rw [hobs] at hmem
      obtain ⟨q, hq, hq1⟩ := List.mem_map.mp hmem
      have := le_lastDate_of_sorted hlt q hq
      omega
    · intro he
      exfalso
      have hmem := (parsed_mem hparse _).mpr he
      obtain ⟨q, hq, hq1⟩ := List.mem_map.mp hmem
      have := le_lastDate_of_sorted hlt q hq
      omega

theorem observed_flag_iff_witness :
    prepSeries [⟨some 18628, 1⟩, ⟨some 18629, 7⟩] =
      .ok ([(18628, 1), (18629, 1), (18630, 1)], [18628, 18629]) ∧
    (((mkRows [(18628, 1), (18629, 1), (18630, 1)] [18628, 18629]).getD 0
        ⟨0, 0, 0, false, 0⟩).observed = true ↔
      ∃ e ∈ ([⟨some 18628, 1⟩, ⟨some 18629, 7⟩] : List Event),
        e.visit_date =
          some ((([(18628, 1), (18629, 1), (18630, 1)] : Series).getD 0 (0, 0)).1)) :=
  ⟨by rfl, observed_flag_iff [⟨some 18628, 1⟩, ⟨some 18629, 7⟩] _ _ (by rfl) 0 (by decide)⟩

/-- The concrete scenario of the specification: 3 distinct ids on 2021-01-01
(day 18628), 5 on 2021-01-02 (18629), 4 on 2021-01-03 (18630). -/
def scenarioEvents : List Event :=
  [⟨some 18628, 1⟩, ⟨some 18628, 2⟩, ⟨some 18628, 3⟩,
   ⟨some 18629, 1⟩, ⟨some 18629, 2⟩, ⟨some 18629, 3⟩, ⟨some 18629, 4⟩, ⟨some 18629, 5⟩,
   ⟨some 18630, 1⟩, ⟨some 18630, 2⟩, ⟨some 18630, 3⟩, ⟨some 18630, 4⟩]

/-- Claim C7, counterexample: the pipeline as coded runs
`Keet.interpolate(dau, 1, 3)` — horizon 1, degree 3 — not degree 1.  With
only 3 observed points the cubic fit is underdetermined; `np.polyfit`'s
column-norm-scaled minimum-norm cubic through (0,3), (1,5), (2,4) evaluates
to −669/238 ≈ −2.81 at offset 3, so the predicted row for 2021-01-04 carries
count −3, not 5. -/
theorem scenario_rows_cex :
    prepData scenarioEvents = .ok
      [⟨2021, 1, 1, true, 3⟩, ⟨2021, 1, 2, true, 5⟩,
       ⟨2021, 1, 3, true, 4⟩, ⟨2021, 1, 4, false, -3⟩] ∧
    (⟨2021, 1, 4, false, -3⟩ : OutputRow) ≠ ⟨2021, 1, 4, false, 5⟩ :=
  ⟨by rfl, by decide⟩

/-- Claim C7, amended: the aggregation gives counts 3, 5, 4 on
2021-01-01..03 as claimed, and calling the extrapolation at degree 1 and
horizon 1 does predict count 5 for 2021-01-04; but the pipeline as coded
calls it at degree 3 (and horizon 1), whose underdetermined column-scaled
minimum-norm fit predicts round(−669/238) = −3, so the final rows are
(2021,1,1,true,3), (2021,1,2,true,5), (2021,1,3,true,4), (2021,1,4,false,−3). -/
theorem scenario_rows_amended :
    groupNunique scenarioEvents = [(some 18628, 3), (some 18629, 5), (some 18630, 4)] ∧
    daysFromCivil 2021 1 1 = 18628 ∧
    interpolate [(18628, 3), (18629, 5), (18630, 4)] 1 1 =
      some [(18628, 3), (18629, 5), (18630, 4), (18631, 5)] ∧
    civilFromDays 18631 = (2021, 1, 4) ∧
    prepData scenarioEvents = .ok
      [⟨2021, 1, 1, true, 3⟩, ⟨2021, 1, 2, true, 5⟩,
       ⟨2021, 1, 3, true, 4⟩, ⟨2021, 1, 4, false, -3⟩] :=
  ⟨by decide, by decide, by decide, by decide, by rfl⟩

/-- Claim C10: every predicted count equals the fitted polynomial value at
the corresponding offset rounded half to even (the behaviour of Python's
`int(round(v))`): the `k`-th appended entry stores
`roundHalfEven(f(xLast + k + 1))`.  In particular a fitted value of 9/2
rounds to 4 (not 5), and negative fitted values are stored unclamped: the
constant fit of counts 4, 5 predicts 4, and the linear fit of counts 2, 0
predicts −2. -/
theorem predicted_rounding :
    (∀ (s t : Series) (days polyN : Nat) (f : List Frac),
      polyfit (seriesOffsets (sortSeries s)) (seriesVals (sortSeries s)) polyN = some f →
      interpolate s days polyN = some t →
      ∀ k, k < days →
        (t.getD ((sortSeries s).length + k) (0, 0)).2 =
          roundHalfEven (polyEval f
            (((seriesOffsets (sortSeries s)).getLastD ⟨0, 1⟩).add
              (Frac.ofInt ((1 + k : Nat) : Int))))) ∧
    interpolate [(0, 4), (1, 5)] 1 0 = some [(0, 4), (1, 5), (2, 4)] ∧
    interpolate [(0, 2), (1, 0)] 1 1 = some [(0, 2), (1, 0), (2, -2)] := by
  refine ⟨?_, by decide, by decide⟩
  intro s t days polyN f hf ht k hk
  obtain ⟨f2, hf2, hne, htp⟩ := interpolate_eq_some ht
  rw [hf] at hf2
  have hff : f2 = f := Option.some.inj hf2.symm
  subst hff
  rw [htp]
  exact predictFrom_getD_value f2 _ days 1 k (sortSeries s) hk

theorem predicted_rounding_witness :
    (([(0, 4), (1, 5), (2, 4)] : Series).getD 2 (0, 0)).2 =
      roundHalfEven (polyEval [⟨9, 2⟩]
        (((seriesOffsets (sortSeries [(0, 4), (1, 5)])).getLastD ⟨0, 1⟩).add
          (Frac.ofInt ((1 + 0 : Nat) : Int)))) :=
  predicted_rounding.1 [(0, 4), (1, 5)] [(0, 4), (1, 5), (2, 4)] 1 0 [⟨9, 2⟩]
    (by decide) (by decide) 0 (by decide)

end Keet
